import Mathlib

/-!
Verification of the security layer of the ai-terminal-chat repository
(`security_utils.py`): password-derived field encryption, secure
configuration save/load, API-key format validation and masking, and the
sliding-window rate limiter.

Conventions of the shallow embedding:
* Python strings are Lean `String`s; timestamps are `Int` seconds.
* The `cryptography` library (PBKDF2 key derivation and Fernet
  authenticated encryption) is not part of the repository, so it is
  modelled from the spec as ideal authenticated encryption: the derived
  key is determined by the `(password, salt)` pair, and a Fernet token
  decrypts exactly under the key that produced it.  Base64 transport
  encoding is an inverse pair and is absorbed into the opaque token.
* Randomness (`os.urandom` salts, `datetime.now()`) is passed in
  explicitly as parameters.
* A raised Python exception is an `Option.none` result; functions of the
  repository that catch exceptions internally are total.
-/

/-- Modelled from the spec (§4.1 KeyDerivation): `generate_key_from_password`
applies PBKDF2-HMAC-SHA256 to the password and salt.  The KDF is
deterministic in `(password, salt)`; the ideal model takes the derived key
to be that pair (a collision-free KDF). -/
structure DerivedKey where
  password : String
  salt : Nat
deriving DecidableEq

/-- Modelled from the spec (§4.2 FieldCipher): a Fernet token is an opaque
authenticated-encryption blob determined by the key and the plaintext. -/
structure FernetToken where
  key : DerivedKey
  plain : String
deriving DecidableEq

/-- `generate_key_from_password` of `SecurityManager` (security_utils.py,
lines 44-56): derive the symmetric key from password and salt.  The salt
is a parameter here (the source draws 16 random bytes when none is given). -/
def generate_key_from_password (password : String) (salt : Nat) : DerivedKey :=
  { password := password, salt := salt }

/-- Modelled from the spec: `Fernet(key).encrypt(data)`. -/
def fernet_encrypt (key : DerivedKey) (data : String) : FernetToken :=
  { key := key, plain := data }

/-- Modelled from the spec: `Fernet(key).decrypt(token)` — authenticated
encryption, so decryption succeeds exactly under the encrypting key and
fails (raises, i.e. `none`) under any other key. -/
def fernet_decrypt (key : DerivedKey) (t : FernetToken) : Option String :=
  if t.key = key then some t.plain else none

/-- The `{encrypted_data, salt, encryption_method}` dictionary returned by
`encrypt_sensitive_data` (security_utils.py, lines 65-69). -/
structure EncBlob where
  encrypted_data : FernetToken
  salt : Nat
  encryption_method : String
deriving DecidableEq

/-- `SecurityManager.encrypt_sensitive_data` (security_utils.py, lines
58-72): derive a key from the password and a fresh salt, Fernet-encrypt
the data, and return the blob with the salt stored alongside. -/
def encrypt_sensitive_data (data : String) (password : String) (salt : Nat) : EncBlob :=
  { encrypted_data := fernet_encrypt (generate_key_from_password password salt) data
    salt := salt
    encryption_method := "fernet_pbkdf2" }

/-- `SecurityManager.decrypt_sensitive_data` (security_utils.py, lines
74-87): read the salt from the blob, re-derive the key from the given
password and that salt, and Fernet-decrypt; a wrong key raises (`none`). -/
def decrypt_sensitive_data (blob : EncBlob) (password : String) : Option String :=
  fernet_decrypt (generate_key_from_password password blob.salt) blob.encrypted_data

/-- A JSON value stored in `secure_config.json`: either a plain string
field or an encrypted blob object. -/
inductive CfgVal where
  | str (s : String)
  | blob (b : EncBlob)
deriving DecidableEq

/-- A configuration record: a Python dict as an association list with
unique keys (first binding wins on lookup). -/
abbrev Config := List (String × CfgVal)

/-- Dict lookup: `c[k]` (first binding). -/
def getField : Config → String → Option CfgVal
  | [], _ => none
  | p :: c, k => if p.1 = k then some p.2 else getField c k

/-- Dict deletion: `del c[k]` (removes every binding of `k`). -/
def delField : Config → String → Config
  | [], _ => []
  | p :: c, k => if p.1 = k then delField c k else p :: delField c k

/-- Dict update: `c[k] = v`. -/
def setField (c : Config) (k : String) (v : CfgVal) : Config :=
  delField c k ++ [(k, v)]

/-- The `sensitive_fields` list of `SecureConfigManager` (security_utils.py,
lines 265 and 302). -/
def sensitive_fields : List String := ["api_key", "password", "token"]

/-- One iteration of the encryption loop of `save_secure_config`
(security_utils.py, lines 267-276): if the field is present and truthy,
try to encrypt it, store the blob under `<field>_encrypted` and delete
the plaintext; if encryption raises (`encFail`), log and continue with
the field untouched.  A non-string (blob) value is truthy but
`.encode()` raises inside `encrypt_sensitive_data`, so it is likewise
kept unchanged. -/
def encryptField (encFail : String → Bool) (saltOf : String → Nat) (password : String)
    (c : Config) (f : String) : Config :=
  match getField c f with
  | some (CfgVal.str s) =>
    if s = "" then c
    else if encFail f then c
    else delField (setField c (f ++ "_encrypted")
      (CfgVal.blob (encrypt_sensitive_data s password (saltOf f)))) f
  | some (CfgVal.blob _) => c
  | none => c

/-- `SecureConfigManager.save_secure_config` (security_utils.py, lines
260-290): copy the record, encrypt each sensitive field in order
`api_key`, `password`, `token`, stamp `encrypted_timestamp`, and write the
result.  `encFail` says which fields' encryption raises; `saltOf` supplies
the fresh random salt per field; `ts` is the `datetime.now().isoformat()`
stamp.  The returned record is the JSON written to disk. -/
def save_secure_config (encFail : String → Bool) (saltOf : String → Nat)
    (config : Config) (master_password : String) (ts : String) : Config :=
  setField (sensitive_fields.foldl (encryptField encFail saltOf master_password) config)
    "encrypted_timestamp" (CfgVal.str ts)

/-- The observable state of `secure_config.json` when `load_secure_config`
runs: absent, unreadable/corrupt (the outer `except` fires), or readable
with contents `c`. -/
inductive FileState where
  | missing
  | corrupt
  | ok (c : Config)

/-- One iteration of the decryption loop of `load_secure_config`
(security_utils.py, lines 304-315): if `<field>_encrypted` is present, try
to decrypt it; on success store the plaintext under the field name and
delete the encrypted entry; on failure (wrong key, or a malformed
non-blob value) log and keep the encrypted entry. -/
def decryptField (password : String) (c : Config) (f : String) : Config :=
  match getField c (f ++ "_encrypted") with
  | some (CfgVal.blob b) =>
    match decrypt_sensitive_data b password with
    | some d => delField (setField c f (CfgVal.str d)) (f ++ "_encrypted")
    | none => c
  | some (CfgVal.str _) => c
  | none => c

/-- `SecureConfigManager.load_secure_config` (security_utils.py, lines
292-321): a missing file yields `{}`; an unreadable/corrupt file is caught
by the outer `except` and yields `{}`; otherwise each sensitive field is
decrypted in order, failures keeping the encrypted entry. -/
def load_secure_config (file : FileState) (master_password : String) : Config :=
  match file with
  | FileState.missing => []
  | FileState.corrupt => []
  | FileState.ok c => sensitive_fields.foldl (decryptField master_password) c

/-- ASCII lower-casing of one character, as `str.lower()` acts on the
ASCII provider names used here. -/
def charLower (c : Char) : Char :=
  if 'A' ≤ c && c ≤ 'Z' then Char.ofNat (c.toNat + 32) else c

/-- Python `provider.lower()` (security_utils.py, line 98), restricted to
its ASCII behaviour. -/
def pyLower (s : String) : String :=
  String.mk (s.data.map charLower)

/-- ASCII alphanumeric character, the `[a-zA-Z0-9]` class of the key
patterns (security_utils.py, lines 91-96). -/
def isAlnumChar (c : Char) : Bool :=
  ('a' ≤ c && c ≤ 'z') || ('A' ≤ c && c ≤ 'Z') || ('0' ≤ c && c ≤ '9')

/-- Match a literal prefix and return the remaining characters, `none` if
the literal is not a prefix (the anchored literal part of a regex). -/
def afterLit : List Char → List Char → Option (List Char)
  | [], l => some l
  | _ :: _, [] => none
  | a :: as, b :: bs => if a = b then afterLit as bs else none

/-- Python `re`'s `$` anchor (without `re.MULTILINE`) matches at the end
of the string or just before one final newline, so a pattern of the form
`^...$` matches a string exactly when its `^...`-part matches the string
with one trailing newline removed, when present.  This strips that one
tolerated trailing newline. -/
def pyDollarStrip (l : List Char) : List Char :=
  match l.reverse with
  | [] => l
  | c :: rest => if c = '\n' then rest.reverse else l

/-- The regex `^sk-[a-zA-Z0-9]{48,}$` for provider `openai`
(security_utils.py, line 92); `$` tolerates one trailing newline. -/
def matchOpenAI (l : List Char) : Bool :=
  match afterLit "sk-".data (pyDollarStrip l) with
  | some r => r.all isAlnumChar && decide (48 ≤ r.length)
  | none => false

/-- The regex `^sk-ant-[a-zA-Z0-9\-]{95,}$` for provider `anthropic`
(security_utils.py, line 93); `$` tolerates one trailing newline. -/
def matchAnthropic (l : List Char) : Bool :=
  match afterLit "sk-ant-".data (pyDollarStrip l) with
  | some r => r.all (fun c => isAlnumChar c || c = '-') && decide (95 ≤ r.length)
  | none => false

/-- The regex `^gsk_[a-zA-Z0-9]{52}$` for provider `groq`
(security_utils.py, line 94); `$` tolerates one trailing newline. -/
def matchGroq (l : List Char) : Bool :=
  match afterLit "gsk_".data (pyDollarStrip l) with
  | some r => r.all isAlnumChar && decide (r.length = 52)
  | none => false

/-- The regex `^sk-or-v1-[a-zA-Z0-9]{64}$` for provider `openrouter`
(security_utils.py, line 95); `$` tolerates one trailing newline. -/
def matchOpenRouter (l : List Char) : Bool :=
  match afterLit "sk-or-v1-".data (pyDollarStrip l) with
  | some r => r.all isAlnumChar && decide (r.length = 64)
  | none => false

/-- Modelled from the spec: Python's `str.isalnum` tests each character
against the Unicode alphanumeric tables of the Python runtime, which are
external to the repository.  On the ASCII range it coincides with
`[a-zA-Z0-9]`; its behaviour on codepoints above 127 is kept abstract as
the parameter `uni`, so every theorem below holds for the actual Unicode
tables whatever they contain. -/
def pyIsAlnumChar (uni : Char → Bool) (c : Char) : Bool :=
  if c.toNat ≤ 127 then isAlnumChar c else uni c

/-- `SecurityManager.validate_api_key_format` (security_utils.py, lines
89-103): look up the provider's pattern (lower-cased provider name) and
match it; an unknown provider uses the generic check
`len(api_key) > 10 and api_key.replace("-","").replace("_","").isalnum()`
(Python `isalnum` is false on the empty string, and Unicode-aware: `uni`
is its table for non-ASCII codepoints). -/
def validate_api_key_format (uni : Char → Bool) (api_key : String)
    (provider : String) : Bool :=
  let p := pyLower provider
  if p = "openai" then matchOpenAI api_key.data
  else if p = "anthropic" then matchAnthropic api_key.data
  else if p = "groq" then matchGroq api_key.data
  else if p = "openrouter" then matchOpenRouter api_key.data
  else
    decide (10 < api_key.length) &&
      !(api_key.data.filter (fun c => !(c = '-' || c = '_'))).isEmpty &&
      (api_key.data.filter (fun c => !(c = '-' || c = '_'))).all (pyIsAlnumChar uni)

/-- `SecurityManager.mask_api_key` (security_utils.py, lines 105-109):
keys of length at most 8 become all asterisks; otherwise keep the first 4
and last 4 characters with asterisks between. -/
def mask_api_key (api_key : String) : String :=
  if api_key.length ≤ 8 then String.mk (List.replicate api_key.length '*')
  else String.mk (api_key.data.take 4 ++ List.replicate (api_key.length - 8) '*'
    ++ api_key.data.drop (api_key.length - 4))

/-- The `rate_limits.json` ledger: request timestamps (Int seconds, the
ISO strings of the source) and the three window limits
(security_utils.py, lines 151-156). -/
structure RateLimits where
  requests : List Int
  daily_limit : Nat
  hourly_limit : Nat
  minute_limit : Nat
deriving DecidableEq

/-- Which window's warning `check_rate_limit` logs when it rejects. -/
inductive TimeWindow where
  | daily
  | hourly
  | minute
deriving DecidableEq

/-- The observable outcome of one `check_rate_limit` call: the returned
Bool, the in-memory ledger afterwards, whether `save_rate_limits` was
invoked (the on-disk write), and which window's warning was logged. -/
structure CheckResult where
  admitted : Bool
  state : RateLimits
  saved : Bool
  triggered : Option TimeWindow
deriving DecidableEq

/-- `SecurityManager.check_rate_limit` (security_utils.py, lines 166-206):
prune entries not strictly newer than 24 h before `now`, count the three
trailing windows, test daily then hourly then minute with inclusive
thresholds, and on admission append `now`, persist, and return true. -/
def check_rate_limit (rl : RateLimits) (now : Int) : CheckResult :=
  let pruned := rl.requests.filter (fun t => now - 86400 < t)
  let hourly_count := (pruned.filter (fun t => now - 3600 < t)).length
  let minute_count := (pruned.filter (fun t => now - 60 < t)).length
  let daily_count := pruned.length
  if rl.daily_limit ≤ daily_count then
    { admitted := false, state := { rl with requests := pruned },
      saved := false, triggered := some TimeWindow.daily }
  else if rl.hourly_limit ≤ hourly_count then
    { admitted := false, state := { rl with requests := pruned },
      saved := false, triggered := some TimeWindow.hourly }
  else if rl.minute_limit ≤ minute_count then
    { admitted := false, state := { rl with requests := pruned },
      saved := false, triggered := some TimeWindow.minute }
  else
    { admitted := true, state := { rl with requests := pruned ++ [now] },
      saved := true, triggered := none }

/-- Whether the character list `needle` occurs contiguously in `hay`. -/
def isPrefixChars : List Char → List Char → Bool
  | [], _ => true
  | _ :: _, [] => false
  | a :: as, b :: bs => a = b && isPrefixChars as bs

/-- Occurrence of `needle` anywhere in `hay`. -/
def hasInfixChars (needle : List Char) : List Char → Bool
  | [] => needle.isEmpty
  | c :: cs => isPrefixChars needle (c :: cs) || hasInfixChars needle cs

/-- `needle` occurs as a contiguous substring of `hay` (used to state
"the plaintext value does not occur in the written file"). -/
def strContains (hay needle : String) : Bool :=
  hasInfixChars needle.data hay.data

/-- The plaintext string `s` occurs somewhere in the record `c`: some
string-valued field contains it.  Encrypted blobs are opaque ciphertext
(base64 Fernet tokens in the source) and do not expose plaintext. -/
def plaintextOccurs (s : String) (c : Config) : Prop :=
  ∃ p ∈ c, ∃ w, p.2 = CfgVal.str w ∧ strContains w s = true

/-- The keys of a record are pairwise distinct (a Python dict). -/
def keysNodup (c : Config) : Prop :=
  (c.map Prod.fst).Nodup

theorem getField_append (c d : Config) (k : String) :
    getField (c ++ d) k =
      match getField c k with
      | some v => some v
      | none => getField d k := by
  induction c with
  | nil => rfl
  | cons p c ih =>
    by_cases h : p.1 = k
    · simp [getField, h]
    · simp [getField, h, ih]

theorem getField_delField_self (c : Config) (k : String) :
    getField (delField c k) k = none := by
  induction c with
  | nil => rfl
  | cons p c ih =>
    by_cases h : p.1 = k
    · simp [delField, h, ih]
    · simp [delField, getField, h, ih]

theorem getField_delField_ne (c : Config) (k k' : String) (h : k' ≠ k) :
    getField (delField c k) k' = getField c k' := by
  induction c with
  | nil => rfl
  | cons p c ih =>
    by_cases hp : p.1 = k
    · have hk : k ≠ k' := fun hh => h hh.symm
      simp [delField, getField, hp, hk, ih]
    · by_cases hp' : p.1 = k'
      · simp [delField, getField, hp, hp', h]
      · simp [delField, getField, hp, hp', ih]

theorem getField_setField_self (c : Config) (k : String) (v : CfgVal) :
    getField (setField c k v) k = some v := by
  rw [setField, getField_append, getField_delField_self]
  simp [getField]

theorem getField_setField_ne (c : Config) (k : String) (v : CfgVal) (k' : String)
    (h : k' ≠ k) :
    getField (setField c k v) k' = getField c k' := by
  rw [setField, getField_append]
  rw [getField_delField_ne c k k' h]
  cases hg : getField c k' with
  | none => simp [getField, Ne.symm h]
  | some v' => rfl

theorem mem_delField (p : String × CfgVal) (c : Config) (k : String)
    (h : p ∈ delField c k) : p ∈ c ∧ p.1 ≠ k := by
  induction c with
  | nil => simp [delField] at h
  | cons q c ih =>
    by_cases hq : q.1 = k
    · simp only [delField, if_pos hq] at h
      exact ⟨List.mem_cons_of_mem q (ih h).1, (ih h).2⟩
    · simp only [delField, if_neg hq, List.mem_cons] at h
      rcases h with h | h
      · subst h; exact ⟨List.mem_cons_self p c, hq⟩
      · exact ⟨List.mem_cons_of_mem q (ih h).1, (ih h).2⟩

theorem mem_setField (p : String × CfgVal) (c : Config) (k : String) (v : CfgVal)
    (h : p ∈ setField c k v) : p ∈ c ∨ p = (k, v) := by
  rw [setField, List.mem_append] at h
  rcases h with h | h
  · exact Or.inl (mem_delField p c k h).1
  · simp at h; exact Or.inr h

theorem keysNodup_delField (c : Config) (k : String) (h : keysNodup c) :
    keysNodup (delField c k) := by
  induction c with
  | nil => simpa [delField] using h
  | cons q c ih =>
    rw [keysNodup, List.map_cons, List.nodup_cons] at h
    by_cases hq : q.1 = k
    · simp only [delField, if_pos hq]
      exact ih h.2
    · simp only [delField, if_neg hq, keysNodup, List.map_cons, List.nodup_cons]
      refine ⟨fun hmem => ?_, ih h.2⟩
      rcases List.mem_map.mp hmem with ⟨r, hr, hr1⟩
      exact h.1 (List.mem_map.mpr ⟨r, (mem_delField r c k hr).1, hr1⟩)

theorem notMem_keys_delField (c : Config) (k : String) :
    k ∉ (delField c k).map Prod.fst := by
  intro hmem
  rcases List.mem_map.mp hmem with ⟨r, hr, hr1⟩
  exact (mem_delField r c k hr).2 hr1

theorem keysNodup_setField (c : Config) (k : String) (v : CfgVal) (h : keysNodup c) :
    keysNodup (setField c k v) := by
  rw [keysNodup, setField, List.map_append, List.nodup_append]
  refine ⟨keysNodup_delField c k h, List.nodup_singleton k, ?_⟩
  intro x hx hx'
  simp at hx'
  exact notMem_keys_delField c k (hx' ▸ hx)

theorem getField_of_mem (c : Config) (p : String × CfgVal)
    (hnd : keysNodup c) (hp : p ∈ c) : getField c p.1 = some p.2 := by
  induction c with
  | nil => simp at hp
  | cons q c ih =>
    rw [keysNodup, List.map_cons, List.nodup_cons] at hnd
    rcases List.mem_cons.mp hp with h | h
    · subst h; simp [getField]
    · have hne : q.1 ≠ p.1 := by
        intro hh
        exact hnd.1 (hh ▸ List.mem_map.mpr ⟨p, h, rfl⟩)
      simp only [getField, if_neg hne]
      exact ih hnd.2 h

theorem getField_encryptField_ne (encFail : String → Bool) (saltOf : String → Nat)
    (pw : String) (c : Config) (f x : String)
    (hx1 : x ≠ f) (hx2 : x ≠ f ++ "_encrypted") :
    getField (encryptField encFail saltOf pw c f) x = getField c x := by
  unfold encryptField
  cases hg : getField c f with
  | none => rfl
  | some v =>
    cases v with
    | blob b => rfl
    | str s =>
      by_cases hs : s = ""
      · simp [hs]
      · by_cases hE : encFail f
        · simp [hs, hE]
        · simp only [hs, hE, if_neg, if_false, Bool.false_eq_true]
          rw [getField_delField_ne _ f x hx1, getField_setField_ne _ _ _ x hx2]

theorem encryptField_keep_empty (encFail : String → Bool) (saltOf : String → Nat)
    (pw : String) (c : Config) (f : String)
    (h : getField c f = some (CfgVal.str "")) :
    encryptField encFail saltOf pw c f = c := by
  unfold encryptField
  simp [h]

theorem encryptField_keep_fail (encFail : String → Bool) (saltOf : String → Nat)
    (pw : String) (c : Config) (f s : String)
    (h : getField c f = some (CfgVal.str s)) (hs : s ≠ "") (hE : encFail f = true) :
    encryptField encFail saltOf pw c f = c := by
  unfold encryptField
  rw [h]
  simp [hs, hE]

theorem encryptField_replace (encFail : String → Bool) (saltOf : String → Nat)
    (pw : String) (c : Config) (f s : String)
    (h : getField c f = some (CfgVal.str s)) (hs : s ≠ "") (hE : encFail f = false) :
    encryptField encFail saltOf pw c f =
      delField (setField c (f ++ "_encrypted")
        (CfgVal.blob (encrypt_sensitive_data s pw (saltOf f)))) f := by
  unfold encryptField
  rw [h]
  simp [hs, hE]

theorem mem_encryptField (encFail : String → Bool) (saltOf : String → Nat)
    (pw : String) (c : Config) (f : String) (p : String × CfgVal)
    (hp : p ∈ encryptField encFail saltOf pw c f) :
    p ∈ c ∨ ∃ b, p.2 = CfgVal.blob b := by
  unfold encryptField at hp
  cases hg : getField c f with
  | none => rw [hg] at hp; exact Or.inl hp
  | some v =>
    rw [hg] at hp
    cases v with
    | blob b => exact Or.inl hp
    | str s =>
      by_cases hs : s = ""
      · simp [hs] at hp; exact Or.inl hp
      · by_cases hE : encFail f
        · simp [hs, hE] at hp; exact Or.inl hp
        · simp only [hs, hE, if_neg, if_false, Bool.false_eq_true] at hp
          have := (mem_delField p _ f hp).1
          rcases mem_setField p c _ _ this with h | h
          · exact Or.inl h
          · exact Or.inr ⟨_, by rw [h]⟩

theorem keysNodup_encryptField (encFail : String → Bool) (saltOf : String → Nat)
    (pw : String) (c : Config) (f : String) (h : keysNodup c) :
    keysNodup (encryptField encFail saltOf pw c f) := by
  unfold encryptField
  cases hg : getField c f with
  | none => exact h
  | some v =>
    cases v with
    | blob b => exact h
    | str s =>
      by_cases hs : s = ""
      · simpa [hs] using h
      · by_cases hE : encFail f
        · simpa [hs, hE] using h
        · simp only [hs, hE, if_neg, if_false, Bool.false_eq_true]
          exact keysNodup_delField _ f (keysNodup_setField c _ _ h)

theorem getField_decryptField_ne (pw : String) (c : Config) (f x : String)
    (hx1 : x ≠ f) (hx2 : x ≠ f ++ "_encrypted") :
    getField (decryptField pw c f) x = getField c x := by
  unfold decryptField
  split
  · split
    · rw [getField_delField_ne _ _ x hx2, getField_setField_ne _ _ _ x hx1]
    · rfl
  · rfl
  · rfl

theorem decryptField_fail (pw : String) (c : Config) (f : String) (b : EncBlob)
    (hb : getField c (f ++ "_encrypted") = some (CfgVal.blob b))
    (hd : decrypt_sensitive_data b pw = none) :
    decryptField pw c f = c := by
  simp [decryptField, hb, hd]

theorem getField_decryptField_ok (pw : String) (c : Config) (f : String)
    (b : EncBlob) (d : String)
    (hb : getField c (f ++ "_encrypted") = some (CfgVal.blob b))
    (hd : decrypt_sensitive_data b pw = some d)
    (hne : f ≠ f ++ "_encrypted") :
    getField (decryptField pw c f) f = some (CfgVal.str d) ∧
      getField (decryptField pw c f) (f ++ "_encrypted") = none := by
  simp only [decryptField, hb, hd]
  constructor
  · rw [getField_delField_ne _ _ f hne, getField_setField_self]
  · rw [getField_delField_self]

theorem encryptField_keep_blob (encFail : String → Bool) (saltOf : String → Nat)
    (pw : String) (c : Config) (f : String) (b : EncBlob)
    (h : getField c f = some (CfgVal.blob b)) :
    encryptField encFail saltOf pw c f = c := by
  simp [encryptField, h]

theorem encryptField_keep_none (encFail : String → Bool) (saltOf : String → Nat)
    (pw : String) (c : Config) (f : String)
    (h : getField c f = none) :
    encryptField encFail saltOf pw c f = c := by
  simp [encryptField, h]

theorem getField_encryptField_self (encFail : String → Bool) (saltOf : String → Nat)
    (pw : String) (c : Config) (f : String) :
    getField (encryptField encFail saltOf pw c f) f =
      match getField c f with
      | some (CfgVal.str s) =>
        if s = "" then some (CfgVal.str s)
        else if encFail f then some (CfgVal.str s) else none
      | v => v := by
  rcases hg : getField c f with _ | v
  · simp [encryptField, hg]
  · cases v with
    | blob b => simp [encryptField, hg]
    | str s =>
      by_cases hs : s = ""
      · simp [encryptField, hg, hs]
      · by_cases hE : encFail f
        · simp [encryptField, hg, hs, hE]
        · simp only [encryptField, hg, hs, hE, if_false, Bool.false_eq_true, if_neg]
          rw [getField_delField_self]

theorem getField_encryptField_enc (encFail : String → Bool) (saltOf : String → Nat)
    (pw : String) (c : Config) (f : String) (hne : f ≠ f ++ "_encrypted") :
    getField (encryptField encFail saltOf pw c f) (f ++ "_encrypted") =
      match getField c f with
      | some (CfgVal.str s) =>
        if s = "" then getField c (f ++ "_encrypted")
        else if encFail f then getField c (f ++ "_encrypted")
        else some (CfgVal.blob (encrypt_sensitive_data s pw (saltOf f)))
      | _ => getField c (f ++ "_encrypted") := by
  rcases hg : getField c f with _ | v
  · simp [encryptField, hg]
  · cases v with
    | blob b => simp [encryptField, hg]
    | str s =>
      by_cases hs : s = ""
      · simp [encryptField, hg, hs]
      · by_cases hE : encFail f
        · simp [encryptField, hg, hs, hE]
        · simp only [encryptField, hg, hs, hE, if_false, Bool.false_eq_true, if_neg]
          rw [getField_delField_ne _ _ _ (Ne.symm hne), getField_setField_self]

theorem getField_decryptField_enc (pw : String) (c : Config) (f : String) :
    getField (decryptField pw c f) (f ++ "_encrypted") =
      match getField c (f ++ "_encrypted") with
      | some (CfgVal.blob b) =>
        match decrypt_sensitive_data b pw with
        | some _ => none
        | none => some (CfgVal.blob b)
      | v => v := by
  rcases hg : getField c (f ++ "_encrypted") with _ | v
  · simp [decryptField, hg]
  · cases v with
    | str s => simp [decryptField, hg]
    | blob b =>
      rcases hd : decrypt_sensitive_data b pw with _ | d
      · simp [decryptField, hg, hd]
      · simp only [decryptField, hg, hd]
        rw [getField_delField_self]

theorem getField_decryptField_plain (pw : String) (c : Config) (f : String)
    (hne : f ≠ f ++ "_encrypted") :
    getField (decryptField pw c f) f =
      match getField c (f ++ "_encrypted") with
      | some (CfgVal.blob b) =>
        match decrypt_sensitive_data b pw with
        | some d => some (CfgVal.str d)
        | none => getField c f
      | _ => getField c f := by
  rcases hg : getField c (f ++ "_encrypted") with _ | v
  · simp [decryptField, hg]
  · cases v with
    | str s => simp [decryptField, hg]
    | blob b =>
      rcases hd : decrypt_sensitive_data b pw with _ | d
      · simp [decryptField, hg, hd]
      · simp only [decryptField, hg, hd]
        rw [getField_delField_ne _ _ _ hne, getField_setField_self]

theorem getField_save_plain (encFail : String → Bool) (saltOf : String → Nat)
    (cfg : Config) (pw ts f : String) (hf : f ∈ sensitive_fields) :
    getField (save_secure_config encFail saltOf cfg pw ts) f =
      match getField cfg f with
      | some (CfgVal.str s) =>
        if s = "" then some (CfgVal.str s)
        else if encFail f then some (CfgVal.str s) else none
      | v => v := by
  simp only [sensitive_fields, List.mem_cons, List.not_mem_nil, or_false] at hf
  simp only [save_secure_config, sensitive_fields, List.foldl_cons, List.foldl_nil]
  rcases hf with rfl | rfl | rfl
  · rw [getField_setField_ne _ _ _ _ (by decide)]
    rw [getField_encryptField_ne _ _ _ _ _ _ (by decide) (by decide)]
    rw [getField_encryptField_ne _ _ _ _ _ _ (by decide) (by decide)]
    exact getField_encryptField_self _ _ _ _ _
  · rw [getField_setField_ne _ _ _ _ (by decide)]
    rw [getField_encryptField_ne _ _ _ _ _ _ (by decide) (by decide)]
    rw [getField_encryptField_self]
    rw [getField_encryptField_ne _ _ _ _ _ _ (by decide) (by decide)]
  · rw [getField_setField_ne _ _ _ _ (by decide)]
    rw [getField_encryptField_self]
    rw [getField_encryptField_ne _ _ _ _ _ _ (by decide) (by decide)]
    rw [getField_encryptField_ne _ _ _ _ _ _ (by decide) (by decide)]

theorem getField_save_enc (encFail : String → Bool) (saltOf : String → Nat)
    (cfg : Config) (pw ts f : String) (hf : f ∈ sensitive_fields) :
    getField (save_secure_config encFail saltOf cfg pw ts) (f ++ "_encrypted") =
      match getField cfg f with
      | some (CfgVal.str s) =>
        if s = "" then getField cfg (f ++ "_encrypted")
        else if encFail f then getField cfg (f ++ "_encrypted")
        else some (CfgVal.blob (encrypt_sensitive_data s pw (saltOf f)))
      | _ => getField cfg (f ++ "_encrypted") := by
  simp only [sensitive_fields, List.mem_cons, List.not_mem_nil, or_false] at hf
  simp only [save_secure_config, sensitive_fields, List.foldl_cons, List.foldl_nil]
  rcases hf with rfl | rfl | rfl
  · rw [getField_setField_ne _ _ _ _ (by decide)]
    rw [getField_encryptField_ne _ _ _ _ _ _ (by decide) (by decide)]
    rw [getField_encryptField_ne _ _ _ _ _ _ (by decide) (by decide)]
    exact getField_encryptField_enc _ _ _ _ _ (by decide)
  · rw [getField_setField_ne _ _ _ _ (by decide)]
    rw [getField_encryptField_ne _ _ _ _ _ _ (by decide) (by decide)]
    rw [getField_encryptField_enc _ _ _ _ _ (by decide)]
    rw [getField_encryptField_ne _ _ _ _ _ _ (by decide) (by decide)]
    rw [getField_encryptField_ne _ _ _ _ _ _ (by decide) (by decide)]
  · rw [getField_setField_ne _ _ _ _ (by decide)]
    rw [getField_encryptField_enc _ _ _ _ _ (by decide)]
    rw [getField_encryptField_ne _ _ _ _ _ _ (by decide) (by decide)]
    rw [getField_encryptField_ne _ _ _ _ _ _ (by decide) (by decide)]
    rw [getField_encryptField_ne _ _ _ _ _ _ (by decide) (by decide)]
    rw [getField_encryptField_ne _ _ _ _ _ _ (by decide) (by decide)]

theorem getField_load_enc (pw : String) (cfg : Config) (f : String)
    (hf : f ∈ sensitive_fields) :
    getField (load_secure_config (FileState.ok cfg) pw) (f ++ "_encrypted") =
      match getField cfg (f ++ "_encrypted") with
      | some (CfgVal.blob b) =>
        match decrypt_sensitive_data b pw with
        | some _ => none
        | none => some (CfgVal.blob b)
      | v => v := by
  simp only [sensitive_fields, List.mem_cons, List.not_mem_nil, or_false] at hf
  simp only [load_secure_config, sensitive_fields, List.foldl_cons, List.foldl_nil]
  rcases hf with rfl | rfl | rfl
  · rw [getField_decryptField_ne _ _ _ _ (by decide) (by decide)]
    rw [getField_decryptField_ne _ _ _ _ (by decide) (by decide)]
    exact getField_decryptField_enc _ _ _
  · rw [getField_decryptField_ne _ _ _ _ (by decide) (by decide)]
    rw [getField_decryptField_enc]
    rw [getField_decryptField_ne _ _ _ _ (by decide) (by decide)]
  · rw [getField_decryptField_enc]
    rw [getField_decryptField_ne _ _ _ _ (by decide) (by decide)]
    rw [getField_decryptField_ne _ _ _ _ (by decide) (by decide)]

theorem getField_load_plain (pw : String) (cfg : Config) (f : String)
    (hf : f ∈ sensitive_fields) :
    getField (load_secure_config (FileState.ok cfg) pw) f =
      match getField cfg (f ++ "_encrypted") with
      | some (CfgVal.blob b) =>
        match decrypt_sensitive_data b pw with
        | some d => some (CfgVal.str d)
        | none => getField cfg f
      | _ => getField cfg f := by
  simp only [sensitive_fields, List.mem_cons, List.not_mem_nil, or_false] at hf
  simp only [load_secure_config, sensitive_fields, List.foldl_cons, List.foldl_nil]
  rcases hf with rfl | rfl | rfl
  · rw [getField_decryptField_ne _ _ _ _ (by decide) (by decide)]
    rw [getField_decryptField_ne _ _ _ _ (by decide) (by decide)]
    exact getField_decryptField_plain _ _ _ (by decide)
  · rw [getField_decryptField_ne _ _ _ _ (by decide) (by decide)]
    rw [getField_decryptField_plain _ _ _ (by decide)]
    rw [getField_decryptField_ne _ _ _ _ (by decide) (by decide)]
    rw [getField_decryptField_ne _ _ _ _ (by decide) (by decide)]
  · rw [getField_decryptField_plain _ _ _ (by decide)]
    rw [getField_decryptField_ne _ _ _ _ (by decide) (by decide)]
    rw [getField_decryptField_ne _ _ _ _ (by decide) (by decide)]
    rw [getField_decryptField_ne _ _ _ _ (by decide) (by decide)]
    rw [getField_decryptField_ne _ _ _ _ (by decide) (by decide)]

theorem strContains_empty_hay (v : String) (h : v ≠ "") :
    strContains "" v = false := by
  cases v with
  | mk d =>
    cases d with
    | nil => exact absurd rfl h
    | cons a as => rfl

theorem afterLit_eq_some (lit : List Char) : ∀ l r : List Char,
    afterLit lit l = some r ↔ l = lit ++ r := by
  induction lit with
  | nil => intro l r; simp [afterLit]
  | cons a as ih =>
    intro l r
    cases l with
    | nil => simp [afterLit]
    | cons b bs =>
      by_cases h : a = b
      · subst h
        simp [afterLit, ih]
      · simp [afterLit, h, Ne.symm h]

theorem pyDollarStrip_append_newline (xs : List Char) :
    pyDollarStrip (xs ++ ['\n']) = xs := by
  simp [pyDollarStrip, List.reverse_append]

theorem pyDollarStrip_recover (l : List Char) :
    l = pyDollarStrip l ∨ l = pyDollarStrip l ++ ['\n'] := by
  rcases hrev : l.reverse with _ | ⟨c, rest⟩
  · left
    simp [pyDollarStrip, hrev]
  · by_cases hc : c = '\n'
    · right
      subst hc
      simp only [pyDollarStrip, hrev, if_pos]
      have hl : l = l.reverse.reverse := (List.reverse_reverse l).symm
      rw [hl, hrev]
      simp
    · left
      simp [pyDollarStrip, hrev, hc]

theorem all_isAlnumChar_ne_newline (r : List Char) (h : r.all isAlnumChar = true) :
    ∀ c ∈ r, c ≠ '\n' := by
  intro c hc heq
  have := List.all_eq_true.mp h c hc
  rw [heq] at this
  exact absurd this (by decide)

theorem pyDollarStrip_append_iff (lit r l : List Char)
    (hne : r ≠ []) (hnl : ∀ c ∈ r, c ≠ '\n') :
    pyDollarStrip l = lit ++ r ↔ (l = lit ++ r ∨ l = lit ++ r ++ ['\n']) := by
  constructor
  · intro h
    rcases pyDollarStrip_recover l with hl | hl
    · left; rw [hl, h]
    · right; rw [hl, h]
  · intro h
    rcases h with hl | hl
    · subst hl
      rcases hrr : r.reverse with _ | ⟨a, rest⟩
      · exact absurd (List.reverse_eq_nil_iff.mp hrr) hne
      · have ha : a ∈ r := by
          have : a ∈ r.reverse := by
            rw [hrr]; exact List.mem_cons_self a rest
          exact List.mem_reverse.mp this
        have hrev : (lit ++ r).reverse = a :: (rest ++ lit.reverse) := by
          rw [List.reverse_append, hrr]
          rfl
        simp only [pyDollarStrip, hrev]
        rw [if_neg (hnl a ha)]
    · subst hl
      exact pyDollarStrip_append_newline (lit ++ r)

/-- C1.  Round trip of the field cipher: decrypting the blob produced by
`encrypt_sensitive_data m p` (with its stored salt) using the same
password `p` returns `m`, because the stored salt reconstructs the same
derived key; decrypting with any `p2 ≠ p` derives a different key, so the
authenticated decryption fails (`DecryptionError`, modelled as `none`)
instead of returning any string. -/
theorem C1_encrypt_decrypt_roundtrip (m p p2 : String) (salt : Nat) :
    decrypt_sensitive_data (encrypt_sensitive_data m p salt) p = some m ∧
      (p2 ≠ p →
        decrypt_sensitive_data (encrypt_sensitive_data m p salt) p2 = none) := by
  constructor
  · simp [decrypt_sensitive_data, encrypt_sensitive_data, fernet_decrypt, fernet_encrypt,
      generate_key_from_password]
  · intro h
    simp only [decrypt_sensitive_data, encrypt_sensitive_data, fernet_decrypt, fernet_encrypt,
      generate_key_from_password]
    rw [if_neg]
    intro hh
    exact h (congrArg DerivedKey.password hh).symm

/-- Witness for C1 at a concrete plaintext, password and salt. -/
theorem C1_encrypt_decrypt_roundtrip_witness :
    decrypt_sensitive_data (encrypt_sensitive_data "m" "p" 7) "p" = some "m" ∧
      decrypt_sensitive_data (encrypt_sensitive_data "m" "p" 7) "q" = none :=
  ⟨(C1_encrypt_decrypt_roundtrip "m" "p" "q" 7).1,
    (C1_encrypt_decrypt_roundtrip "m" "p" "q" 7).2 (by decide)⟩

/-- C8.  `mask_api_key` preserves the length; a key of length at most 8 is
masked to all asterisks; a longer key keeps its first 4 and last 4
characters with asterisks in between; in particular the 12-character key
"abcd1234efgh" becomes "abcd****efgh" and the 5-character key "short"
becomes "*****". -/
theorem C8_mask_api_key (k : String) :
    (mask_api_key k).length = k.length ∧
      (k.length ≤ 8 → (mask_api_key k).data = List.replicate k.length '*') ∧
      (8 < k.length → (mask_api_key k).data =
        k.data.take 4 ++ List.replicate (k.length - 8) '*' ++
          k.data.drop (k.length - 4)) ∧
      mask_api_key "abcd1234efgh" = "abcd****efgh" ∧
      mask_api_key "short" = "*****" := by
  refine ⟨?_, ?_, ?_, by decide, by decide⟩
  · by_cases h8 : k.length ≤ 8
    · simp only [mask_api_key, if_pos h8]
      show (List.replicate k.length '*').length = k.length
      exact List.length_replicate _ _
    · have h8' : 8 < k.length := Nat.lt_of_not_le h8
      simp only [mask_api_key, if_neg h8]
      show (k.data.take 4 ++ List.replicate (k.length - 8) '*' ++
        k.data.drop (k.length - 4)).length = k.length
      have hlen : k.length = k.data.length := rfl
      rw [List.length_append, List.length_append, List.length_take,
        List.length_replicate, List.length_drop, hlen]
      rw [hlen] at h8'
      omega
  · intro h8
    simp [mask_api_key, h8]
  · intro h8
    simp [mask_api_key, Nat.not_le.mpr h8]

/-- Witness for C8 at a concrete key of each shape. -/
theorem C8_mask_api_key_witness :
    (mask_api_key "abcd1234efgh").data =
      ("abcd1234efgh" : String).data.take 4 ++
        List.replicate (("abcd1234efgh" : String).length - 8) '*' ++
        ("abcd1234efgh" : String).data.drop (("abcd1234efgh" : String).length - 4) ∧
      (mask_api_key "short").data = List.replicate ("short" : String).length '*' :=
  ⟨(C8_mask_api_key "abcd1234efgh").2.2.1 (by decide),
    (C8_mask_api_key "short").2.1 (by decide)⟩

/-- C5.  After any call to `check_rate_limit` — admitted or rejected — the
resulting ledger contains no timestamp older than 24 hours (86400 s)
before the time of the call: the pruning at the start of the check keeps
only entries strictly newer than `now - 86400`, and the only entry ever
appended is `now` itself. -/
theorem C5_ledger_pruned (rl : RateLimits) (now t : Int)
    (ht : t ∈ (check_rate_limit rl now).state.requests) : now - 86400 < t := by
  have mem_pruned : ∀ u : Int, u ∈ rl.requests.filter (fun x => decide (now - 86400 < x)) →
      now - 86400 < u := by
    intro u hu
    have := List.of_mem_filter hu
    exact of_decide_eq_true this
  revert ht
  simp only [check_rate_limit]
  split_ifs with h1 h2 h3
  · exact mem_pruned t
  · exact mem_pruned t
  · exact mem_pruned t
  · intro ht
    simp only [List.mem_append, List.mem_singleton] at ht
    rcases ht with ht | ht
    · exact mem_pruned t ht
    · subst ht; omega

/-- Witness for C5: a stale entry is pruned and the fresh entries obey the
bound at a concrete call. -/
theorem C5_ledger_pruned_witness :
    (100000 : Int) - 86400 < 99999 :=
  C5_ledger_pruned
    { requests := [1, 99999], daily_limit := 10, hourly_limit := 10, minute_limit := 10 }
    100000 99999 (by decide)

/-- C10.  A rejected `check_rate_limit` call never invokes
`save_rate_limits`, so the on-disk ledger file is untouched; the
in-memory ledger is only pruned of expired entries (no timestamp is
appended). -/
theorem C10_reject_no_persist (rl : RateLimits) (now : Int)
    (h : (check_rate_limit rl now).admitted = false) :
    (check_rate_limit rl now).saved = false ∧
      (check_rate_limit rl now).state.requests =
        rl.requests.filter (fun t => now - 86400 < t) := by
  revert h
  simp only [check_rate_limit]
  split_ifs with h1 h2 h3
  · intro _; exact ⟨rfl, rfl⟩
  · intro _; exact ⟨rfl, rfl⟩
  · intro _; exact ⟨rfl, rfl⟩
  · intro hc; exact absurd hc (by simp)

/-- Witness for C10 at a concrete rejected call (all limits zero). -/
theorem C10_reject_no_persist_witness :
    (check_rate_limit
        { requests := [], daily_limit := 0, hourly_limit := 0, minute_limit := 0 }
        50).saved = false ∧
      (check_rate_limit
          { requests := [], daily_limit := 0, hourly_limit := 0, minute_limit := 0 }
          50).state.requests =
        List.filter (fun t => decide ((50 : Int) - 86400 < t)) [] :=
  C10_reject_no_persist
    { requests := [], daily_limit := 0, hourly_limit := 0, minute_limit := 0 }
    50 (by decide)

/-- C4.  `check_rate_limit` evaluates the windows in the order daily,
hourly, minute (the logged `triggered` window is the first, in that
order, whose count of prior requests reaches its limit); it returns false
without appending and without persisting as soon as a count is at or
above its limit (inclusive threshold), and when all three counts are
under their limits it appends `now`, persists the ledger and returns
true; with `minute_limit = 2`, two requests inside 60 seconds are both
admitted, a third inside the same window is rejected, and a request after
more than 60 seconds is admitted again. -/
theorem C4_check_rate_limit (rl : RateLimits) (now : Int) :
    ((check_rate_limit rl now).admitted = true ↔
      (rl.requests.filter (fun t => now - 86400 < t)).length < rl.daily_limit ∧
      ((rl.requests.filter (fun t => now - 86400 < t)).filter
        (fun t => now - 3600 < t)).length < rl.hourly_limit ∧
      ((rl.requests.filter (fun t => now - 86400 < t)).filter
        (fun t => now - 60 < t)).length < rl.minute_limit) ∧
    ((check_rate_limit rl now).admitted = false →
      (check_rate_limit rl now).state.requests =
        rl.requests.filter (fun t => now - 86400 < t) ∧
      (check_rate_limit rl now).saved = false) ∧
    ((check_rate_limit rl now).admitted = true →
      (check_rate_limit rl now).state.requests =
        rl.requests.filter (fun t => now - 86400 < t) ++ [now] ∧
      (check_rate_limit rl now).saved = true) ∧
    ((check_rate_limit rl now).triggered =
      if rl.daily_limit ≤ (rl.requests.filter (fun t => now - 86400 < t)).length
        then some TimeWindow.daily
      else if rl.hourly_limit ≤ ((rl.requests.filter (fun t => now - 86400 < t)).filter
          (fun t => now - 3600 < t)).length then some TimeWindow.hourly
      else if rl.minute_limit ≤ ((rl.requests.filter (fun t => now - 86400 < t)).filter
          (fun t => now - 60 < t)).length then some TimeWindow.minute
      else none) ∧
    (let s0 : RateLimits :=
      { requests := [], daily_limit := 1000, hourly_limit := 100, minute_limit := 2 };
     let r1 := check_rate_limit s0 0;
     let r2 := check_rate_limit r1.state 10;
     let r3 := check_rate_limit r2.state 20;
     let r4 := check_rate_limit r3.state 75;
     r1.admitted = true ∧ r2.admitted = true ∧ r3.admitted = false ∧
       r3.triggered = some TimeWindow.minute ∧ r4.admitted = true) := by
  refine ⟨?_, ?_, ?_, ?_, by decide⟩ <;>
    simp only [check_rate_limit] <;>
    split_ifs with h1 h2 h3 <;>
    simp_all

/-- Witness for C4: the third request of the scenario is rejected, so the
rejection branch of the theorem applies concretely. -/
theorem C4_check_rate_limit_witness :
    (check_rate_limit
        { requests := [0, 10], daily_limit := 1000, hourly_limit := 100, minute_limit := 2 }
        20).state.requests =
      ([0, 10] : List Int).filter (fun t => (20 : Int) - 86400 < t) ∧
    (check_rate_limit
        { requests := [0, 10], daily_limit := 1000, hourly_limit := 100, minute_limit := 2 }
        20).saved = false :=
  (C4_check_rate_limit
    { requests := [0, 10], daily_limit := 1000, hourly_limit := 100, minute_limit := 2 }
    20).2.1 (by decide)

/-- C9.  A sensitive field whose value is the empty string is falsy in
Python, so `save_secure_config` skips encryption for it: the field is kept
under its original name with its empty value, and the
`<field>_encrypted` entry is exactly whatever the input record already
had — in particular none is created when none was present. -/
theorem C9_empty_sensitive_field (encFail : String → Bool) (saltOf : String → Nat)
    (cfg : Config) (pw ts f : String)
    (hf : f ∈ sensitive_fields)
    (h0 : getField cfg f = some (CfgVal.str "")) :
    getField (save_secure_config encFail saltOf cfg pw ts) f = some (CfgVal.str "") ∧
      getField (save_secure_config encFail saltOf cfg pw ts) (f ++ "_encrypted") =
        getField cfg (f ++ "_encrypted") ∧
      (getField cfg (f ++ "_encrypted") = none →
        getField (save_secure_config encFail saltOf cfg pw ts) (f ++ "_encrypted") = none) := by
  have h1 : getField (save_secure_config encFail saltOf cfg pw ts) f
      = some (CfgVal.str "") := by
    rw [getField_save_plain encFail saltOf cfg pw ts f hf]
    simp [h0]
  have h2 : getField (save_secure_config encFail saltOf cfg pw ts) (f ++ "_encrypted")
      = getField cfg (f ++ "_encrypted") := by
    rw [getField_save_enc encFail saltOf cfg pw ts f hf]
    simp [h0]
  exact ⟨h1, h2, fun hn => h2.trans hn⟩

/-- Witness for C9: an empty `api_key` is saved verbatim and no blob
appears. -/
theorem C9_empty_sensitive_field_witness :
    getField (save_secure_config (fun _ => false) (fun _ => 0)
        [("api_key", CfgVal.str "")] "pw" "ts") "api_key" = some (CfgVal.str "") ∧
      getField (save_secure_config (fun _ => false) (fun _ => 0)
          [("api_key", CfgVal.str "")] "pw" "ts") ("api_key" ++ "_encrypted") =
        getField [("api_key", CfgVal.str "")] ("api_key" ++ "_encrypted") ∧
      (getField [("api_key", CfgVal.str "")] ("api_key" ++ "_encrypted") = none →
        getField (save_secure_config (fun _ => false) (fun _ => 0)
            [("api_key", CfgVal.str "")] "pw" "ts") ("api_key" ++ "_encrypted") = none) :=
  C9_empty_sensitive_field (fun _ => false) (fun _ => 0)
    [("api_key", CfgVal.str "")] "pw" "ts" "api_key" (by decide) (by decide)

/-- C6.  `load_secure_config` error handling: a missing file yields the
empty record; a catastrophic read failure (unreadable/corrupt file) is
caught and yields the empty record; and a sensitive field whose blob does
not decrypt is kept encrypted under its `<field>_encrypted` key — the
per-field `except` swallows the error, so no exception escapes (the
embedding of `load_secure_config` is total). -/
theorem C6_load_error_handling (pw : String) (cfg : Config) (f : String) (b : EncBlob)
    (hf : f ∈ sensitive_fields)
    (hb : getField cfg (f ++ "_encrypted") = some (CfgVal.blob b))
    (hd : decrypt_sensitive_data b pw = none) :
    load_secure_config FileState.missing pw = [] ∧
      load_secure_config FileState.corrupt pw = [] ∧
      getField (load_secure_config (FileState.ok cfg) pw) (f ++ "_encrypted") =
        some (CfgVal.blob b) := by
  refine ⟨rfl, rfl, ?_⟩
  rw [getField_load_enc pw cfg f hf]
  simp [hb, hd]

/-- Witness for C6: a blob encrypted under "pw" does not decrypt under
"other" and is retained by the load. -/
theorem C6_load_error_handling_witness :
    load_secure_config FileState.missing "other" = [] ∧
      load_secure_config FileState.corrupt "other" = [] ∧
      getField (load_secure_config
          (FileState.ok [("api_key_encrypted",
            CfgVal.blob (encrypt_sensitive_data "S" "pw" 1))]) "other")
          ("api_key" ++ "_encrypted") =
        some (CfgVal.blob (encrypt_sensitive_data "S" "pw" 1)) :=
  C6_load_error_handling "other"
    [("api_key_encrypted", CfgVal.blob (encrypt_sensitive_data "S" "pw" 1))]
    "api_key" (encrypt_sensitive_data "S" "pw" 1) (by decide) (by decide) (by decide)

/-- C3 counterexample.  The claim says a sensitive field whose encryption
fails "must still not be persisted in plaintext", but in the source the
`del secure_config[field]` removing the plaintext sits inside the `try:`
after the encryption call, and the `except` only logs — so when
`encrypt_sensitive_data` raises, the plaintext survives into the written
record.  At the concrete record `{"api_key": "SECRET"}` with the
encryption of `api_key` failing, the saved file still maps `api_key` to
the plaintext "SECRET" and carries no `api_key_encrypted` blob. -/
theorem C3_plaintext_counterexample :
    getField (save_secure_config (fun f => f == "api_key") (fun _ => 0)
        [("api_key", CfgVal.str "SECRET")] "pw" "ts") "api_key" =
      some (CfgVal.str "SECRET") ∧
      getField (save_secure_config (fun f => f == "api_key") (fun _ => 0)
          [("api_key", CfgVal.str "SECRET")] "pw" "ts") "api_key_encrypted" = none := by
  decide

/-- C3 amended.  The file written by `save_secure_config` replaces each
non-empty sensitive string field whose encryption succeeds by its
`<field>_encrypted` blob (no plaintext remains for it); the save is never
aborted by a failing field, but a sensitive field whose encryption fails
remains in the written record under its original name with its plaintext
value. -/
theorem C3_sensitive_fields_on_disk (encFail : String → Bool) (saltOf : String → Nat)
    (cfg : Config) (pw ts f s : String)
    (hf : f ∈ sensitive_fields)
    (hs : getField cfg f = some (CfgVal.str s)) (hne : s ≠ "") :
    (encFail f = false →
      getField (save_secure_config encFail saltOf cfg pw ts) f = none ∧
        getField (save_secure_config encFail saltOf cfg pw ts) (f ++ "_encrypted") =
          some (CfgVal.blob (encrypt_sensitive_data s pw (saltOf f)))) ∧
    (encFail f = true →
      getField (save_secure_config encFail saltOf cfg pw ts) f = some (CfgVal.str s)) := by
  constructor
  · intro hE
    constructor
    · rw [getField_save_plain encFail saltOf cfg pw ts f hf]
      simp [hs, hne, hE]
    · rw [getField_save_enc encFail saltOf cfg pw ts f hf]
      simp [hs, hne, hE]
  · intro hE
    rw [getField_save_plain encFail saltOf cfg pw ts f hf]
    simp [hs, hne, hE]

/-- Witness for the amended C3: one failing field stays plaintext while a
succeeding one is replaced, at concrete records. -/
theorem C3_sensitive_fields_on_disk_witness :
    (getField (save_secure_config (fun _ => false) (fun _ => 0)
        [("api_key", CfgVal.str "SECRET")] "pw" "ts") "api_key" = none ∧
      getField (save_secure_config (fun _ => false) (fun _ => 0)
          [("api_key", CfgVal.str "SECRET")] "pw" "ts") ("api_key" ++ "_encrypted") =
        some (CfgVal.blob (encrypt_sensitive_data "SECRET" "pw" 0))) ∧
    getField (save_secure_config (fun f => f == "api_key") (fun _ => 0)
        [("api_key", CfgVal.str "SECRET")] "pw" "ts") "api_key" =
      some (CfgVal.str "SECRET") :=
  ⟨(C3_sensitive_fields_on_disk (fun _ => false) (fun _ => 0)
      [("api_key", CfgVal.str "SECRET")] "pw" "ts" "api_key" "SECRET"
      (by decide) (by decide) (by decide)).1 rfl,
    (C3_sensitive_fields_on_disk (fun f => f == "api_key") (fun _ => 0)
      [("api_key", CfgVal.str "SECRET")] "pw" "ts" "api_key" "SECRET"
      (by decide) (by decide) (by decide)).2 (by decide)⟩

/-- C2.  Round trip of the secure config store, for a record whose
`api_key` is a non-empty string `v` (with the natural side conditions
that `v` does not already occur inside a non-sensitive field or the
timestamp, and that keys are unique as in a Python dict): the written
file contains no occurrence of the plaintext `v` in any string field,
holds `api_key_encrypted` as a blob in place of the removed `api_key`;
loading with the same password restores `api_key = v`; loading with a
different password keeps `api_key_encrypted` present and leaves
`api_key` absent. -/
theorem C2_save_load_roundtrip (saltOf : String → Nat) (cfg : Config)
    (pw pw2 ts v : String)
    (hnd : keysNodup cfg)
    (hA : getField cfg "api_key" = some (CfgVal.str v))
    (hv : v ≠ "")
    (hocc : ∀ p ∈ cfg, p.1 ∉ sensitive_fields → ∀ w, p.2 = CfgVal.str w →
      strContains w v = false)
    (hts : strContains ts v = false)
    (hp2 : pw2 ≠ pw) :
    ¬ plaintextOccurs v (save_secure_config (fun _ => false) saltOf cfg pw ts) ∧
    getField (save_secure_config (fun _ => false) saltOf cfg pw ts) "api_key" = none ∧
    getField (save_secure_config (fun _ => false) saltOf cfg pw ts)
        ("api_key" ++ "_encrypted") =
      some (CfgVal.blob (encrypt_sensitive_data v pw (saltOf "api_key"))) ∧
    getField (load_secure_config
        (FileState.ok (save_secure_config (fun _ => false) saltOf cfg pw ts)) pw)
        "api_key" = some (CfgVal.str v) ∧
    getField (load_secure_config
        (FileState.ok (save_secure_config (fun _ => false) saltOf cfg pw ts)) pw2)
        ("api_key" ++ "_encrypted") =
      some (CfgVal.blob (encrypt_sensitive_data v pw (saltOf "api_key"))) ∧
    getField (load_secure_config
        (FileState.ok (save_secure_config (fun _ => false) saltOf cfg pw ts)) pw2)
        "api_key" = none := by
  have hfA : "api_key" ∈ sensitive_fields := by decide
  have h2 : getField (save_secure_config (fun _ => false) saltOf cfg pw ts) "api_key"
      = none := by
    rw [getField_save_plain _ _ _ _ _ _ hfA]
    simp [hA, hv]
  have h3 : getField (save_secure_config (fun _ => false) saltOf cfg pw ts)
      ("api_key" ++ "_encrypted")
      = some (CfgVal.blob (encrypt_sensitive_data v pw (saltOf "api_key"))) := by
    rw [getField_save_enc _ _ _ _ _ _ hfA]
    simp [hA, hv]
  have hdec : decrypt_sensitive_data (encrypt_sensitive_data v pw (saltOf "api_key")) pw
      = some v := by
    simp [decrypt_sensitive_data, encrypt_sensitive_data, fernet_decrypt, fernet_encrypt,
      generate_key_from_password]
  have hdec2 : decrypt_sensitive_data (encrypt_sensitive_data v pw (saltOf "api_key")) pw2
      = none := by
    simp only [decrypt_sensitive_data, encrypt_sensitive_data, fernet_decrypt,
      fernet_encrypt, generate_key_from_password]
    rw [if_neg]
    intro hh
    exact hp2 (congrArg DerivedKey.password hh).symm
  have h3' : getField (save_secure_config (fun _ => false) saltOf cfg pw ts)
      "api_key_encrypted"
      = some (CfgVal.blob (encrypt_sensitive_data v pw (saltOf "api_key"))) := h3
  have h4 : getField (load_secure_config
      (FileState.ok (save_secure_config (fun _ => false) saltOf cfg pw ts)) pw)
      "api_key" = some (CfgVal.str v) := by
    rw [getField_load_plain pw _ "api_key" hfA]
    simp [h3', hdec]
  have h5 : getField (load_secure_config
      (FileState.ok (save_secure_config (fun _ => false) saltOf cfg pw ts)) pw2)
      ("api_key" ++ "_encrypted")
      = some (CfgVal.blob (encrypt_sensitive_data v pw (saltOf "api_key"))) := by
    rw [getField_load_enc pw2 _ "api_key" hfA]
    simp [h3', hdec2]
  have h6 : getField (load_secure_config
      (FileState.ok (save_secure_config (fun _ => false) saltOf cfg pw ts)) pw2)
      "api_key" = none := by
    rw [getField_load_plain pw2 _ "api_key" hfA]
    simp [h3', hdec2, h2]
  have hsaved : save_secure_config (fun _ => false) saltOf cfg pw ts =
      setField (encryptField (fun _ => false) saltOf pw
        (encryptField (fun _ => false) saltOf pw
          (encryptField (fun _ => false) saltOf pw cfg "api_key") "password") "token")
        "encrypted_timestamp" (CfgVal.str ts) := rfl
  have hnd3 : keysNodup (encryptField (fun _ => false) saltOf pw
      (encryptField (fun _ => false) saltOf pw
        (encryptField (fun _ => false) saltOf pw cfg "api_key") "password") "token") :=
    keysNodup_encryptField _ _ _ _ _
      (keysNodup_encryptField _ _ _ _ _ (keysNodup_encryptField _ _ _ _ _ hnd))
  refine ⟨?_, h2, h3, h4, h5, h6⟩
  rintro ⟨p, hp, w, hw, hcontains⟩
  rw [hsaved] at hp
  rcases mem_setField p _ _ _ hp with hp3 | hpts
  swap
  · rw [hpts] at hw
    injection hw with hws
    rw [← hws] at hcontains
    rw [hts] at hcontains
    exact Bool.false_ne_true hcontains
  have hpcfg : p ∈ cfg := by
    rcases mem_encryptField _ _ _ _ _ _ hp3 with hq | ⟨b, hb⟩
    · rcases mem_encryptField _ _ _ _ _ _ hq with hq' | ⟨b, hb⟩
      · rcases mem_encryptField _ _ _ _ _ _ hq' with hq'' | ⟨b, hb⟩
        · exact hq''
        · rw [hw] at hb; cases hb
      · rw [hw] at hb; cases hb
    · rw [hw] at hb; cases hb
  by_cases hpf : p.1 ∈ sensitive_fields
  · have hg3 : getField (encryptField (fun _ => false) saltOf pw
        (encryptField (fun _ => false) saltOf pw
          (encryptField (fun _ => false) saltOf pw cfg "api_key") "password") "token")
        p.1 = some p.2 :=
      getField_of_mem _ _ hnd3 hp3
    have hsp := getField_save_plain (fun _ => false) saltOf cfg pw ts p.1 hpf
    rw [hsaved] at hsp
    have hts' : p.1 ≠ "encrypted_timestamp" := by
      simp only [sensitive_fields, List.mem_cons, List.not_mem_nil, or_false] at hpf
      rcases hpf with h' | h' | h' <;> rw [h'] <;> decide
    rw [getField_setField_ne _ _ _ _ hts'] at hsp
    rw [hg3, hw] at hsp
    rcases hgc : getField cfg p.1 with _ | val
    · rw [hgc] at hsp; cases hsp
    · cases val with
      | blob b => rw [hgc] at hsp; simp at hsp
      | str s =>
        rw [hgc] at hsp
        by_cases hs : s = ""
        · subst hs
          simp at hsp
          rw [hsp] at hcontains
          rw [strContains_empty_hay v hv] at hcontains
          exact Bool.false_ne_true hcontains
        · simp [hs] at hsp
  · have := hocc p hpcfg hpf w hw
    rw [this] at hcontains
    exact Bool.false_ne_true hcontains

/-- Witness for C2 at a concrete record, password pair and timestamp. -/
theorem C2_save_load_roundtrip_witness :
    ¬ plaintextOccurs "SECRET"
        (save_secure_config (fun _ => false) (fun _ => 3)
          [("llm_type", CfgVal.str "openai"), ("api_key", CfgVal.str "SECRET")] "pw" "2024") ∧
    getField (save_secure_config (fun _ => false) (fun _ => 3)
        [("llm_type", CfgVal.str "openai"), ("api_key", CfgVal.str "SECRET")] "pw" "2024")
      "api_key" = none ∧
    getField (save_secure_config (fun _ => false) (fun _ => 3)
        [("llm_type", CfgVal.str "openai"), ("api_key", CfgVal.str "SECRET")] "pw" "2024")
      ("api_key" ++ "_encrypted") =
      some (CfgVal.blob (encrypt_sensitive_data "SECRET" "pw" 3)) ∧
    getField (load_secure_config
        (FileState.ok (save_secure_config (fun _ => false) (fun _ => 3)
          [("llm_type", CfgVal.str "openai"), ("api_key", CfgVal.str "SECRET")] "pw" "2024"))
        "pw") "api_key" = some (CfgVal.str "SECRET") ∧
    getField (load_secure_config
        (FileState.ok (save_secure_config (fun _ => false) (fun _ => 3)
          [("llm_type", CfgVal.str "openai"), ("api_key", CfgVal.str "SECRET")] "pw" "2024"))
        "wrong") ("api_key" ++ "_encrypted") =
      some (CfgVal.blob (encrypt_sensitive_data "SECRET" "pw" 3)) ∧
    getField (load_secure_config
        (FileState.ok (save_secure_config (fun _ => false) (fun _ => 3)
          [("llm_type", CfgVal.str "openai"), ("api_key", CfgVal.str "SECRET")] "pw" "2024"))
        "wrong") "api_key" = none :=
  C2_save_load_roundtrip (fun _ => 3)
    [("llm_type", CfgVal.str "openai"), ("api_key", CfgVal.str "SECRET")]
    "pw" "wrong" "2024" "SECRET"
    (by unfold keysNodup; decide) (by decide) (by decide)
    (by
      intro p hp hns w hw
      simp only [List.mem_cons, List.not_mem_nil, or_false] at hp
      rcases hp with rfl | rfl
      · injection hw with h'
        rw [← h']
        decide
      · exact absurd (show ("api_key", CfgVal.str "SECRET").1 ∈ sensitive_fields by decide) hns)
    (by decide) (by decide)

/-- C7 counterexample.  Python's `$` anchor (no `re.MULTILINE`) also
matches just before one trailing newline, so
`validate_api_key_format` accepts the key "sk-" + 48 alphanumerics +
"\n" for provider `openai` even though that key is not "sk-" followed
only by alphanumeric characters: every decomposition of it after the
"sk-" prefix contains the newline, which is not alphanumeric.  This
refutes the claim's "exactly when". -/
theorem C7_trailing_newline_counterexample :
    validate_api_key_format (fun _ => false) "sk-AAAAAAAAAAAAAAAAAAAAAAAAAAAAAAAAAAAAAAAAAAAAAAAA\n" "openai" = true ∧
      ∀ r : List Char, ("sk-AAAAAAAAAAAAAAAAAAAAAAAAAAAAAAAAAAAAAAAAAAAAAAAA\n" : String).data = "sk-".data ++ r →
        r.all isAlnumChar = false := by
  constructor
  · decide
  · intro r hr
    have h0 : ("sk-AAAAAAAAAAAAAAAAAAAAAAAAAAAAAAAAAAAAAAAAAAAAAAAA\n" : String).data =
        "sk-".data ++ ("AAAAAAAAAAAAAAAAAAAAAAAAAAAAAAAAAAAAAAAAAAAAAAAA\n" : String).data := by decide
    rw [h0] at hr
    have h1 : ("AAAAAAAAAAAAAAAAAAAAAAAAAAAAAAAAAAAAAAAAAAAAAAAA\n" : String).data = r := List.append_cancel_left hr
    rw [← h1]
    decide

/-- C7 amended.  `validate_api_key_format` accepts exactly the
provider's fixed shape up to the one trailing newline tolerated by
Python's `$` anchor: for `openai`, "sk-" followed by at least 48
alphanumeric characters, optionally followed by one final newline (so
"sk-" + 48 alphanumerics is accepted and "sk-" + 47 characters is
rejected); for `groq`, "gsk_" + exactly 52 alphanumerics (same
optional newline); for `openrouter`, "sk-or-v1-" + exactly 64
alphanumerics (same optional newline); and for a provider outside the
known set, exactly when the key is longer than 10 characters and is
non-empty and alphanumeric in Python's Unicode sense (`uni` abstracts
the runtime's table above ASCII) after removing '-' and '_'. -/
theorem C7_validate_api_key_format (uni : Char → Bool) (k : String) :
    (validate_api_key_format uni k "openai" = true ↔
      ∃ r : List Char,
        (k.data = "sk-".data ++ r ∨ k.data = "sk-".data ++ r ++ ['\n']) ∧
        r.all isAlnumChar = true ∧ 48 ≤ r.length) ∧
    (validate_api_key_format uni k "groq" = true ↔
      ∃ r : List Char,
        (k.data = "gsk_".data ++ r ∨ k.data = "gsk_".data ++ r ++ ['\n']) ∧
        r.all isAlnumChar = true ∧ r.length = 52) ∧
    (validate_api_key_format uni k "openrouter" = true ↔
      ∃ r : List Char,
        (k.data = "sk-or-v1-".data ++ r ∨ k.data = "sk-or-v1-".data ++ r ++ ['\n']) ∧
        r.all isAlnumChar = true ∧ r.length = 64) ∧
    (∀ provider : String,
      pyLower provider ∉ (["openai", "anthropic", "groq", "openrouter"] : List String) →
      (validate_api_key_format uni k provider = true ↔
        10 < k.length ∧ k.data.filter (fun c => !(c = '-' || c = '_')) ≠ [] ∧
          (k.data.filter (fun c => !(c = '-' || c = '_'))).all (pyIsAlnumChar uni) = true)) ∧
    validate_api_key_format uni "sk-AAAAAAAAAAAAAAAAAAAAAAAAAAAAAAAAAAAAAAAAAAAAAAAA" "openai" = true ∧
    validate_api_key_format uni "sk-AAAAAAAAAAAAAAAAAAAAAAAAAAAAAAAAAAAAAAAAAAAAAAA" "openai" = false := by
  refine ⟨?_, ?_, ?_, ?_, ?_, ?_⟩
  · have hlow : pyLower "openai" = "openai" := by decide
    simp only [validate_api_key_format, hlow, if_pos]
    have hmain : matchOpenAI k.data = true ↔
        ∃ r : List Char, pyDollarStrip k.data = "sk-".data ++ r ∧
          r.all isAlnumChar = true ∧ 48 ≤ r.length := by
      rcases hal : afterLit "sk-".data (pyDollarStrip k.data) with _ | r
      · simp only [matchOpenAI, hal, Bool.false_eq_true, false_iff, not_exists]
        intro r hr
        have := (afterLit_eq_some "sk-".data (pyDollarStrip k.data) r).mpr hr.1
        cases this.symm.trans hal
      · simp only [matchOpenAI, hal, Bool.and_eq_true, decide_eq_true_eq]
        constructor
        · rintro ⟨hall, hlen⟩
          exact ⟨r, (afterLit_eq_some _ _ r).mp hal, hall, hlen⟩
        · rintro ⟨r', hkr', hall', hlen'⟩
          have h1 := (afterLit_eq_some "sk-".data (pyDollarStrip k.data) r).mp hal
          rw [h1] at hkr'
          have h2 : r = r' := List.append_cancel_left hkr'
          rw [h2]
          exact ⟨hall', hlen'⟩
    rw [hmain]
    constructor
    · rintro ⟨r, hsr, hall, hlen⟩
      have hne : r ≠ [] := by
        intro h0
        rw [h0] at hlen
        simp at hlen
      exact ⟨r, (pyDollarStrip_append_iff _ _ _ hne
        (all_isAlnumChar_ne_newline r hall)).mp hsr, hall, hlen⟩
    · rintro ⟨r, hor, hall, hlen⟩
      have hne : r ≠ [] := by
        intro h0
        rw [h0] at hlen
        simp at hlen
      exact ⟨r, (pyDollarStrip_append_iff _ _ _ hne
        (all_isAlnumChar_ne_newline r hall)).mpr hor, hall, hlen⟩
  · have hlow : pyLower "groq" = "groq" := by decide
    simp only [validate_api_key_format, hlow]
    rw [if_neg (by decide), if_neg (by decide)]
    simp only [if_true]
    have hmain : matchGroq k.data = true ↔
        ∃ r : List Char, pyDollarStrip k.data = "gsk_".data ++ r ∧
          r.all isAlnumChar = true ∧ r.length = 52 := by
      rcases hal : afterLit "gsk_".data (pyDollarStrip k.data) with _ | r
      · simp only [matchGroq, hal, Bool.false_eq_true, false_iff, not_exists]
        intro r hr
        have := (afterLit_eq_some "gsk_".data (pyDollarStrip k.data) r).mpr hr.1
        cases this.symm.trans hal
      · simp only [matchGroq, hal, Bool.and_eq_true, decide_eq_true_eq]
        constructor
        · rintro ⟨hall, hlen⟩
          exact ⟨r, (afterLit_eq_some _ _ r).mp hal, hall, hlen⟩
        · rintro ⟨r', hkr', hall', hlen'⟩
          have h1 := (afterLit_eq_some "gsk_".data (pyDollarStrip k.data) r).mp hal
          rw [h1] at hkr'
          have h2 : r = r' := List.append_cancel_left hkr'
          rw [h2]
          exact ⟨hall', hlen'⟩
    rw [hmain]
    constructor
    · rintro ⟨r, hsr, hall, hlen⟩
      have hne : r ≠ [] := by
        intro h0
        rw [h0] at hlen
        simp at hlen
      exact ⟨r, (pyDollarStrip_append_iff _ _ _ hne
        (all_isAlnumChar_ne_newline r hall)).mp hsr, hall, hlen⟩
    · rintro ⟨r, hor, hall, hlen⟩
      have hne : r ≠ [] := by
        intro h0
        rw [h0] at hlen
        simp at hlen
      exact ⟨r, (pyDollarStrip_append_iff _ _ _ hne
        (all_isAlnumChar_ne_newline r hall)).mpr hor, hall, hlen⟩
  · have hlow : pyLower "openrouter" = "openrouter" := by decide
    simp only [validate_api_key_format, hlow]
    rw [if_neg (by decide), if_neg (by decide), if_neg (by decide)]
    simp only [if_true]
    have hmain : matchOpenRouter k.data = true ↔
        ∃ r : List Char, pyDollarStrip k.data = "sk-or-v1-".data ++ r ∧
          r.all isAlnumChar = true ∧ r.length = 64 := by
      rcases hal : afterLit "sk-or-v1-".data (pyDollarStrip k.data) with _ | r
      · simp only [matchOpenRouter, hal, Bool.false_eq_true, false_iff, not_exists]
        intro r hr
        have := (afterLit_eq_some "sk-or-v1-".data (pyDollarStrip k.data) r).mpr hr.1
        cases this.symm.trans hal
      · simp only [matchOpenRouter, hal, Bool.and_eq_true, decide_eq_true_eq]
        constructor
        · rintro ⟨hall, hlen⟩
          exact ⟨r, (afterLit_eq_some _ _ r).mp hal, hall, hlen⟩
        · rintro ⟨r', hkr', hall', hlen'⟩
          have h1 := (afterLit_eq_some "sk-or-v1-".data (pyDollarStrip k.data) r).mp hal
          rw [h1] at hkr'
          have h2 : r = r' := List.append_cancel_left hkr'
          rw [h2]
          exact ⟨hall', hlen'⟩
    rw [hmain]
    constructor
    · rintro ⟨r, hsr, hall, hlen⟩
      have hne : r ≠ [] := by
        intro h0
        rw [h0] at hlen
        simp at hlen
      exact ⟨r, (pyDollarStrip_append_iff _ _ _ hne
        (all_isAlnumChar_ne_newline r hall)).mp hsr, hall, hlen⟩
    · rintro ⟨r, hor, hall, hlen⟩
      have hne : r ≠ [] := by
        intro h0
        rw [h0] at hlen
        simp at hlen
      exact ⟨r, (pyDollarStrip_append_iff _ _ _ hne
        (all_isAlnumChar_ne_newline r hall)).mpr hor, hall, hlen⟩
  · intro provider hprov
    simp only [List.mem_cons, List.not_mem_nil, or_false, not_or] at hprov
    obtain ⟨hq1, hq2, hq3, hq4⟩ := hprov
    simp only [validate_api_key_format]
    rw [if_neg hq1, if_neg hq2, if_neg hq3, if_neg hq4]
    simp [Bool.and_eq_true, decide_eq_true_eq, List.isEmpty_iff, and_assoc]
  · have hlow : pyLower "openai" = "openai" := by decide
    simp only [validate_api_key_format, hlow, if_pos]
    decide
  · have hlow : pyLower "openai" = "openai" := by decide
    simp only [validate_api_key_format, hlow, if_pos]
    decide

/-- Witness for the amended C7: an unknown provider falls back to the
generic check at a concrete key (any Unicode table, here the empty one). -/
theorem C7_validate_api_key_format_witness :
    validate_api_key_format (fun _ => false) "mykey123456" "somewhere" = true :=
  ((C7_validate_api_key_format (fun _ => false) "mykey123456").2.2.2.1 "somewhere"
    (by decide)).mpr (by decide)
